import Mathlib

/-!
Verification of the speckle-automate-data-shield matching/traversal engine.

Shallow embedding of `src/data_shield/helpers.py`, `src/data_shield/actions.py`
and `src/data_shield/function.py`.  Python strings are modelled as `String`
(operated on through their character lists), dictionaries as association
lists in insertion order, and the external automation collaborator as an
explicit environment producing an event trace.  Fallible Python code
(operations that can raise) is modelled with `Option`.
-/

namespace DataShield

/-! ## EmailMatcher (helpers.py)

`EMAIL_PATTERN = r"[a-zA-Z0-9._%+-]+@[a-zA-Z0-9.-]+\.[a-zA-Z]{2,}"`, compiled
with `re.compile` and used through `search` (for `contains_email`) and `sub`
(for `anonymize_email`).  The matcher below is a direct implementation of
Python's leftmost, greedy-with-backtracking semantics for this one pattern:
the local-part run and the domain run are maximal, the `\.` forces the domain
`+` to backtrack to the rightmost dot that still leaves at least two letters,
and the final `[a-zA-Z]`-run is taken greedily. -/

/-- Character class `[a-zA-Z0-9._%+-]` (the local part of the email regex). -/
def isLocalChar (c : Char) : Bool :=
  c.isAlpha || c.isDigit || c == '.' || c == '_' || c == '%' || c == '+' || c == '-'

/-- Character class `[a-zA-Z0-9.-]` (the domain part of the email regex). -/
def isDomainChar (c : Char) : Bool :=
  c.isAlpha || c.isDigit || c == '.' || c == '-'

/-- Length of the maximal prefix of `l` whose characters satisfy `p`
(the extent of a greedy `+`/`*` over a character class). -/
def countWhile (p : Char → Bool) : List Char → Nat
  | [] => 0
  | c :: rest => if p c then countWhile p rest + 1 else 0

/-- Backtracking for `[a-zA-Z0-9.-]+\.[a-zA-Z]{2,}` applied to `rest`
(the text after the `@`): try consuming `j` domain characters for
`j = d, d-1, …, 1`; the literal dot must follow, then at least two letters,
which are then taken greedily.  Returns the number of characters of `rest`
consumed by the whole tail, or `none`. -/
def searchDot (rest : List Char) : Nat → Option Nat
  | 0 => none
  | j + 1 =>
    if rest.get? (j + 1) == some '.' then
      let t := countWhile Char.isAlpha (rest.drop (j + 2))
      if 2 ≤ t then some ((j + 1) + 1 + t) else searchDot rest j
    else searchDot rest j

/-- Match of the email pattern anchored at the head of `s`; returns the length
of the (unique, greedy) match when one exists. -/
def matchEmail (s : List Char) : Option Nat :=
  if countWhile isLocalChar s == 0 then none
  else
    match s.get? (countWhile isLocalChar s) with
    | some c =>
      if c == '@' then
        match searchDot (s.drop (countWhile isLocalChar s + 1))
            (countWhile isDomainChar (s.drop (countWhile isLocalChar s + 1))) with
        | some k => some (countWhile isLocalChar s + 1 + k)
        | none => none
      else none
    | none => none

/-- `re.search` existence for the email pattern: some suffix position matches. -/
def searchEmail : List Char → Bool
  | [] => false
  | c :: rest => (matchEmail (c :: rest)).isSome || searchEmail rest

/-- The local-part anonymisation of `EmailMatcher.anonymize_email.replace_email`:
first and last character around asterisks when the length exceeds 2, first
character plus one asterisk at length 2, a single asterisk otherwise. -/
def anonymizeLocal (l : List Char) : List Char :=
  if 2 < l.length then
    l.take 1 ++ List.replicate (l.length - 2) '*' ++ l.drop (l.length - 1)
  else if l.length == 2 then l.take 1 ++ ['*']
  else ['*']

/-- `replace_email` of `anonymize_email`: split the matched email on the first
`@` (every matched email contains one, so the Python 2-element unpacking of
`email.split("@", 1)` is modelled directly) and rebuild it with the local part
anonymised and the domain verbatim. -/
def replace_email (matched : List Char) : List Char :=
  let localPart := matched.takeWhile (fun c => c != '@')
  let domainPart := (matched.dropWhile (fun c => c != '@')).drop 1
  anonymizeLocal localPart ++ '@' :: domainPart

/-- `re.sub` scanning loop: at each position try the pattern; on a match of
length `n` emit the replacement and continue after the match, otherwise keep
one character and move on.  `fuel` only makes the recursion structural; it is
always instantiated with the length of the list, which suffices because every
match is nonempty. -/
def subEmailsAux : Nat → List Char → List Char
  | 0, s => s
  | _ + 1, [] => []
  | fuel + 1, c :: rest =>
    match matchEmail (c :: rest) with
    | some n => replace_email ((c :: rest).take n) ++ subEmailsAux fuel ((c :: rest).drop n)
    | none => c :: subEmailsAux fuel rest

/-- `EmailMatcher.contains_email` on a string value. -/
def contains_email (v : String) : Bool := searchEmail v.data

/-- `EmailMatcher.anonymize_email` on a string value. -/
def anonymize_email (v : String) : String := ⟨subEmailsAux v.data.length v.data⟩

/-- Spec-side restatement of the local-part masking rule, written from the
claim's words: a local part of length L is replaced by its first and last
character around L-2 asterisks when L > 2, by the first character plus one
asterisk when L == 2, and by a single asterisk when L ≤ 1. -/
def maskedLocalSpec (l : List Char) : List Char :=
  if 2 < l.length then l.head?.toList ++ List.replicate (l.length - 2) '*' ++ l.getLast?.toList
  else if l.length == 2 then l.head?.toList ++ ['*']
  else ['*']

/-! ## PatternChecker (helpers.py)

`PatternChecker.__init__` classifies the user pattern
(`self.is_regex = pattern.startswith("/") and pattern.rstrip("i").endswith("/")`),
extracts the regex body and the case flag, and `check` runs
`self.regex.search(param_name)` in regex mode.  Python string primitives are
modelled on character lists.  The regex engine below covers exactly the
fragment of Python `re` syntax this development evaluates (anchors, word
characters, `\d`, greedy `+`); `compileSeq` returns `none` outside that
fragment, and `PatternChecker.check` returns `none` for the glob
(`fnmatch`) branch, which no claim exercises. -/

/-- Python `str.startswith`: `startsWithL pre l` holds when `pre` is an initial
segment of `l`. -/
def startsWithL : List Char → List Char → Bool
  | [], _ => true
  | _ :: _, [] => false
  | p :: ps, c :: cs => p == c && startsWithL ps cs

/-- Python `str.endswith`. -/
def endsWithL (suffix l : List Char) : Bool := startsWithL suffix.reverse l.reverse

/-- Python `str.rstrip("i")`: remove every trailing `'i'`. -/
def rstripI (l : List Char) : List Char :=
  (l.reverse.dropWhile (fun c => c == 'i')).reverse

/-- Python `str.lower` on the ASCII range (all inputs in the claims are ASCII). -/
def lowerL (l : List Char) : List Char := l.map Char.toLower

/-- Abstract syntax for the supported regex fragment. -/
inductive Regex where
  | empty
  | charLit (c : Char)
  | digit
  | bol
  | eol
  | seq (a b : Regex)
  | plus (a : Regex)

/-- Character comparison under the optional `re.IGNORECASE` flag. -/
def charMatches (ic : Bool) (p c : Char) : Bool :=
  if ic then p.toLower == c.toLower else p == c

/-- All positions reachable from the frontier by one or more further `step`s;
used for the greedy `+`.  The fuel is always at least the number of distinct
positions, so the fixpoint is reached. -/
def plusClosure (step : Nat → List Nat) : Nat → List Nat → List Nat → List Nat
  | 0, _, acc => acc
  | fuel + 1, frontier, acc =>
    match (frontier.flatMap step).filter (fun p => !(acc.contains p)) with
    | [] => acc
    | next => plusClosure step fuel next (acc ++ next)

/-- End positions of a match of `r` starting at position `i` of `s`
(`$` matches only at the very end: no claim involves trailing newlines). -/
def Regex.ends (ic : Bool) (s : List Char) : Regex → Nat → List Nat
  | .empty, i => [i]
  | .charLit c, i =>
    match s.get? i with
    | some c2 => if charMatches ic c c2 then [i + 1] else []
    | none => []
  | .digit, i =>
    match s.get? i with
    | some c2 => if c2.isDigit then [i + 1] else []
    | none => []
  | .bol, i => if i == 0 then [i] else []
  | .eol, i => if i == s.length then [i] else []
  | .seq a b, i => (Regex.ends ic s a i).flatMap (Regex.ends ic s b)
  | .plus a, i =>
    plusClosure (fun j => Regex.ends ic s a j) (s.length + 2)
      (Regex.ends ic s a i) (Regex.ends ic s a i)

/-- Characters accepted as literals by the supported fragment. -/
def isPlainChar (c : Char) : Bool := c.isAlpha || c.isDigit || c == '_'

/-- Translation of a regex body string into the supported fragment
(`none` when the body uses anything else). -/
def compileSeq : List Char → Option Regex
  | [] => some .empty
  | '^' :: '+' :: rest => (compileSeq rest).map (Regex.seq (Regex.plus Regex.bol))
  | '^' :: rest => (compileSeq rest).map (Regex.seq Regex.bol)
  | '$' :: '+' :: rest => (compileSeq rest).map (Regex.seq (Regex.plus Regex.eol))
  | '$' :: rest => (compileSeq rest).map (Regex.seq Regex.eol)
  | '\\' :: 'd' :: '+' :: rest => (compileSeq rest).map (Regex.seq (Regex.plus Regex.digit))
  | '\\' :: 'd' :: rest => (compileSeq rest).map (Regex.seq Regex.digit)
  | '\\' :: _ => none
  | c :: '+' :: rest =>
    if isPlainChar c then (compileSeq rest).map (Regex.seq (Regex.plus (Regex.charLit c)))
    else none
  | c :: rest =>
    if isPlainChar c then (compileSeq rest).map (Regex.seq (Regex.charLit c))
    else none

/-- Python `re.search`: a match may start at any position of the string
(unanchored search). -/
def reSearch (r : Regex) (ic : Bool) (s : String) : Bool :=
  (List.range (s.length + 1)).any (fun i => !(Regex.ends ic s.data r i).isEmpty)

/-- State computed by `PatternChecker.__init__`: `pattern` holds
`self.pattern` (the regex body in regex mode, the raw pattern otherwise). -/
structure PatternChecker where
  is_regex : Bool
  ignore_case : Bool
  user_strict : Bool
  pattern : String

/-- `PatternChecker.__init__(pattern, strict)`.  Slices `pattern[1:-1]` and
`pattern[1:-2]` are `drop 1` plus one or two `dropLast`. -/
def PatternChecker.init (pattern : String) (strict : Bool) : PatternChecker :=
  if startsWithL ['/'] pattern.data && endsWithL ['/'] (rstripI pattern.data) then
    if endsWithL ['/', 'i'] pattern.data then
      { is_regex := true, ignore_case := true, user_strict := strict,
        pattern := ⟨(pattern.data.drop 1).dropLast.dropLast⟩ }
    else
      { is_regex := true, ignore_case := !strict, user_strict := strict,
        pattern := ⟨(pattern.data.drop 1).dropLast⟩ }
  else
    { is_regex := false, ignore_case := !strict, user_strict := strict,
      pattern := pattern }

/-- `PatternChecker.check`: in regex mode, `self.regex.search(param_name)`
(the body is recompiled here, which is equivalent since compilation is pure;
a body outside the supported fragment gives `none`).  The glob branch
(`fnmatch`) is unmodelled (`none`): no claim exercises it. -/
def PatternChecker.check (pc : PatternChecker) (name : String) : Option Bool :=
  if pc.is_regex then
    (compileSeq pc.pattern.data).map (fun r => reSearch r pc.ignore_case name)
  else none

/-! ## Data model: property values, legacy parameter objects, nodes

Python dictionaries are association lists in insertion order (keys are unique
in every dictionary produced by Python, and the walkers only ever remove or
update the key currently under visit). -/

/-- A value stored in a v3 `properties` structure: a string, a non-string
scalar, or a nested dictionary. -/
inductive PValue where
  | str (s : String)
  | intVal (n : Int)
  | dict (entries : List (String × PValue))

/-- Python `d[k]` lookup (first binding). -/
def lookupKey {α : Type} (k : String) : List (String × α) → Option α
  | [] => none
  | (k2, v) :: rest => if k2 == k then some v else lookupKey k rest

/-- Python `d.pop(k, None)`: drop the binding of `k` when present. -/
def eraseKey {α : Type} (k : String) : List (String × α) → List (String × α)
  | [] => []
  | (k2, v) :: rest => if k2 == k then rest else (k2, v) :: eraseKey k rest

/-- Python `d[k] = v` for a key already present (in-place update). -/
def setKey {α : Type} (k : String) (v : α) : List (String × α) → List (String × α)
  | [] => []
  | (k2, v2) :: rest => if k2 == k then (k2, v) :: rest else (k2, v2) :: setKey k v rest

/-- A legacy (v2 Revit) parameter `Base`: a `speckle_type` tag and optional
`name`/`value` attributes (`getattr` falls back to its default when the
attribute is absent). -/
structure RevitParamObj where
  speckle_type : String
  name : Option PValue
  value : Option PValue

/-- A dynamic member of a legacy `parameters` Base object: either a nested
parameter `Base` or some other value (skipped by the revit loop). -/
inductive LegacyMember where
  | baseObj (p : RevitParamObj)
  | plainVal (v : PValue)

/-- A legacy `parameters` collection: the dynamic members of the Base object,
as exposed by `get_dynamic_member_names` / `__getitem__` / `__dict__`. -/
structure LegacyParams where
  members : List (String × LegacyMember)

/-- A graph node handed to the walker by the traversal collaborator.
`properties` holds the entries of the v3 properties mapping (a `Base`-shaped
properties object is unwrapped through `__dict__` into the same entries). -/
structure SpeckleNode where
  id : String
  properties : Option (List (String × PValue))
  parameters : Option LegacyParams

/-- A traversal context (`context.current` is the node under visit). -/
structure Context where
  current : SpeckleNode

/-! ## Matchers and actions (actions.py) -/

/-- `PrefixMatcher.matches`: case-sensitive `startswith` in strict mode,
both sides lower-cased otherwise. -/
def prefixMatches (mv : String) (strict : Bool) (name : String) : Bool :=
  if strict then startsWithL mv.data name.data
  else startsWithL (lowerL mv.data) (lowerL name.data)

/-- The matcher strategies of `actions.py`. -/
inductive ParameterMatcher where
  | prefixMatcher (match_value : String) (strict_mode : Bool)
  | patternMatcher (match_value : String) (strict_mode : Bool)

/-- `ParameterMatcher.matches`; `Option`al because `PatternMatcher` defers to
`PatternChecker.check` (whose glob branch is unmodelled). -/
def ParameterMatcher.matches : ParameterMatcher → String → Option Bool
  | .prefixMatcher mv strict, name => some (prefixMatches mv strict name)
  | .patternMatcher mv strict, name => (PatternChecker.init mv strict).check name

/-- The polymorphic actions: `RemovalAction` (carrying its matcher) and
`AnonymizationAction`. -/
inductive ParameterAction where
  | removal (matcher : ParameterMatcher)
  | anonymization

/-- `action.check` on a subject value.  `none` models a raised exception:
`RemovalAction.check` runs `startswith`/`search` on the subject and raises on
a non-string, while `AnonymizationAction.check` goes through
`contains_email`, whose `isinstance` guard returns `False` for non-strings. -/
def ParameterAction.checkP : ParameterAction → PValue → Option Bool
  | .removal m, .str s => m.matches s
  | .removal _, _ => none
  | .anonymization, .str s => some (contains_email s)
  | .anonymization, _ => some false

/-- Run bookkeeping: `processed_objects` of `ParameterProcessor` (a set,
modelled as a duplicate-free insertion-ordered list) together with the active
action's `affected_parameters` (the append-ordered `(object id, name)`
records of `defaultdict(list)`) and `anonymized_count`. -/
structure PState where
  processedObjects : List String
  affected : List (String × PValue)
  anonymizedCount : Nat

/-- The state at the start of a run. -/
def PState.initial : PState := ⟨[], [], 0⟩

/-- `processed_objects.add(id)` (set insertion). -/
def addProcessed (l : List String) (id : String) : List String :=
  if l.contains id then l else l ++ [id]

/-- `parameter.get("name", parameter_key)`. -/
def paramNameOf (parameter : List (String × PValue)) (key : String) : PValue :=
  (lookupKey "name" parameter).getD (.str key)

/-- A parameter container: a plain dictionary or a legacy attribute-bearing
`Base` object (whose `__dict__` holds the dynamic members). -/
inductive Container where
  | dict (entries : List (String × PValue))
  | baseObj (members : List (String × LegacyMember))

/-- Bookkeeping tail of `RemovalAction.apply`: record
`(object id, parameter name)` into `affected_parameters`. -/
def removalBookkeep (parameter : List (String × PValue)) (key : String) (objId : String)
    (st : PState) : PState :=
  { st with affected := st.affected ++ [(objId, paramNameOf parameter key)] }

/-- Dictionary branch of `RemovalAction.apply`: `containing_dict.pop(key, None)`
then bookkeeping. -/
def RemovalAction.applyDict (parameter : List (String × PValue)) (objId : String)
    (entries : List (String × PValue)) (key : String) (st : PState) :
    List (String × PValue) × PState :=
  (eraseKey key entries, removalBookkeep parameter key objId st)

/-- `RemovalAction.apply` over either container kind.  The function is total:
every Python operation in the source is non-raising (`pop` with default for
dictionaries; for `Base` objects the `__dict__.pop` succeeds on the modelled
objects, making the try/except fallback cascade unreachable), and the
bookkeeping append runs whether or not the key was actually present. -/
def RemovalAction.apply (parameter : List (String × PValue)) (objId : String)
    (c : Container) (key : String) (st : PState) : Container × PState :=
  match c with
  | .dict entries =>
    let (entries', st') := RemovalAction.applyDict parameter objId entries key st
    (.dict entries', st')
  | .baseObj ms => (.baseObj (eraseKey key ms), removalBookkeep parameter key objId st)

/-- `AnonymizationAction.apply` on the parameter leaf: no-op unless the
parameter has a string `"value"`; compute the mask; skip when unchanged;
otherwise write `parameter["value"]` in place and record the parameter.  The
additional write into a `Base` container is handled in the revit loop. -/
def AnonymizationAction.applyLeaf (parameter : List (String × PValue)) (objId : String)
    (key : String) (st : PState) : List (String × PValue) × PState :=
  match lookupKey "value" parameter with
  | some (.str original) =>
    let anonymized := anonymize_email original
    if anonymized == original then (parameter, st)
    else
      (setKey "value" (.str anonymized) parameter,
       { st with affected := st.affected ++ [(objId, paramNameOf parameter key)],
                 anonymizedCount := st.anonymizedCount + 1 })
  | _ => (parameter, st)

/-! ## GraphWalker (`ParameterProcessor` of function.py) -/

/-- `ParameterProcessor.process_properties_dict`: iterate over a snapshot of
the items (`list(properties_dict.items())`); a nested dict carrying a
`"value"` key is a parameter leaf — check it by name or by value and, on a
match, run the action's `apply` and mark the node processed; a nested dict
without `"value"` is recursed into.  Only the key currently under visit is
ever mutated, so the current dictionary is threaded beside the snapshot.
`fuel` makes the recursion structurally terminating (the source recursion
terminates on the finite dictionaries being walked); `none` is exhausted fuel
or a raised exception (see `ParameterAction.checkP`). -/
def processDictLoop (a : ParameterAction) (checkValues : Bool) (objId : String) :
    Nat → List (String × PValue) → List (String × PValue) → PState →
    Option (List (String × PValue) × PState)
  | 0, _, _, _ => none
  | _ + 1, [], cur, st => some (cur, st)
  | fuel + 1, (key, v) :: rest, cur, st =>
    match v with
    | .dict ventries =>
      if (lookupKey "value" ventries).isSome then
        let subject := if checkValues then (lookupKey "value" ventries).getD (.str "")
                       else paramNameOf ventries key
        match a.checkP subject with
        | none => none
        | some false => processDictLoop a checkValues objId fuel rest cur st
        | some true =>
          match a with
          | .removal _ =>
            let (cur', st') := RemovalAction.applyDict ventries objId cur key st
            processDictLoop a checkValues objId fuel rest cur'
              { st' with processedObjects := addProcessed st'.processedObjects objId }
          | .anonymization =>
            let (ventries', st') := AnonymizationAction.applyLeaf ventries objId key st
            processDictLoop a checkValues objId fuel rest (setKey key (.dict ventries') cur)
              { st' with processedObjects := addProcessed st'.processedObjects objId }
      else
        match processDictLoop a checkValues objId fuel ventries ventries st with
        | none => none
        | some (ventries', st') =>
          processDictLoop a checkValues objId fuel rest (setKey key (.dict ventries') cur) st'
    | _ => processDictLoop a checkValues objId fuel rest cur st

/-- `ParameterProcessor.process_context`: walk the v3 `properties` mapping
when present; the legacy `parameters` branch of `process_context` is a
placeholder (`pass`) in the source and has no effect.  Returns the updated
node together with the bookkeeping state. -/
def processContext (fuel : Nat) (a : ParameterAction) (checkValues : Bool)
    (ctx : Context) (st : PState) : Option (SpeckleNode × PState) :=
  match ctx.current.properties with
  | some entries =>
    match processDictLoop a checkValues ctx.current.id fuel entries entries st with
    | none => none
    | some (entries', st') => some ({ ctx.current with properties := some entries' }, st')
  | none => some (ctx.current, st)

/-- The properties structure of claim C1. -/
def fooProps : List (String × PValue) :=
  [("Foo", .dict [("name", .str "Foo_Bar"), ("value", .str "x")]),
   ("nested", .dict [("Baz", .dict [("name", .str "Baz"), ("value", .str "y")])])]

/-! ## process_revit_parameters (function.py) -/

/-- The speckle type tag of a legacy Revit parameter. -/
def revitParamType : String := "Objects.BuiltElements.Revit.Parameter"

/-- `Base`-container branch of `RemovalAction.apply`: pop the key from the
object's `__dict__`, then bookkeeping (the try/except fallbacks of the source
are unreachable because the `__dict__` pop cannot raise). -/
def RemovalAction.applyBase (parameter : List (String × PValue)) (objId : String)
    (ms : List (String × LegacyMember)) (key : String) (st : PState) :
    List (String × LegacyMember) × PState :=
  (eraseKey key ms, removalBookkeep parameter key objId st)

/-- `AnonymizationAction.apply` when the container is a legacy `Base`: besides
updating the (ephemeral) synthetic `param_dict`, the parameter object fetched
through `__getitem__(key)` gets its `value` attribute overwritten when it is
present; bookkeeping runs whenever the mask changed the value. -/
def AnonymizationAction.applyBase (parameter : List (String × PValue)) (objId : String)
    (ms : List (String × LegacyMember)) (key : String) (st : PState) :
    List (String × LegacyMember) × PState :=
  match lookupKey "value" parameter with
  | some (.str original) =>
    let anonymized := anonymize_email original
    if anonymized == original then (ms, st)
    else
      let ms' :=
        match lookupKey key ms with
        | some (.baseObj p) =>
          match p.value with
          | some _ => setKey key (.baseObj { p with value := some (.str anonymized) }) ms
          | none => ms
        | _ => ms
      (ms', { st with affected := st.affected ++ [(objId, paramNameOf parameter key)],
                      anonymizedCount := st.anonymizedCount + 1 })
  | _ => (ms, st)

/-- Loop body of `ParameterProcessor.process_revit_parameters`: for each key of
the snapshot taken by `get_dynamic_member_names()`, fetch the member
(`__getitem__`; a missing key is skipped), skip anything that is not a `Base`
tagged as a Revit parameter, build the synthetic
`{name, value, applicationInternalName}` record and dispatch check/apply by
mode, marking the node processed on a match (the name branch of the source
adds the id to the set twice, which is modelled faithfully). -/
def revitLoop (a : ParameterAction) (checkValues : Bool) (objId : String) :
    List String → List (String × LegacyMember) → PState →
    Option (List (String × LegacyMember) × PState)
  | [], ms, st => some (ms, st)
  | k :: ks, ms, st =>
    match lookupKey k ms with
    | none => revitLoop a checkValues objId ks ms st
    | some (.plainVal _) => revitLoop a checkValues objId ks ms st
    | some (.baseObj p) =>
      if p.speckle_type != revitParamType then revitLoop a checkValues objId ks ms st
      else
        let nameV := p.name.getD (.str "")
        let valueV := p.value.getD (.str "")
        let paramDict : List (String × PValue) :=
          [("name", nameV), ("value", valueV), ("applicationInternalName", .str k)]
        if checkValues then
          match valueV with
          | .str sv =>
            match a.checkP (.str sv) with
            | none => none
            | some false => revitLoop a checkValues objId ks ms st
            | some true =>
              let (ms', st') :=
                match a with
                | .removal _ => RemovalAction.applyBase paramDict objId ms k st
                | .anonymization => AnonymizationAction.applyBase paramDict objId ms k st
              revitLoop a checkValues objId ks ms'
                { st' with processedObjects := addProcessed st'.processedObjects objId }
          | _ => revitLoop a checkValues objId ks ms st
        else
          match a.checkP nameV with
          | none => none
          | some false => revitLoop a checkValues objId ks ms st
          | some true =>
            let (ms', st') :=
              match a with
              | .removal _ => RemovalAction.applyBase paramDict objId ms k st
              | .anonymization => AnonymizationAction.applyBase paramDict objId ms k st
            revitLoop a checkValues objId ks ms'
              { st' with processedObjects :=
                  addProcessed (addProcessed st'.processedObjects objId) objId }

/-- `ParameterProcessor.process_revit_parameters`: run the loop over the
snapshot of dynamic member names when the node carries a non-null legacy
`parameters` collection.  This method exists on the processor but is not
invoked by `process_context`. -/
def process_revit_parameters (a : ParameterAction) (checkValues : Bool)
    (node : SpeckleNode) (st : PState) : Option (SpeckleNode × PState) :=
  match node.parameters with
  | none => some (node, st)
  | some lp =>
    match revitLoop a checkValues node.id (lp.members.map Prod.fst) lp.members st with
    | none => none
    | some (ms', st') => some ({ node with parameters := some ⟨ms'⟩ }, st')

/-- Whether a legacy member is a Revit parameter whose name matches the prefix
matcher (the members acted on by a prefix-removal revit pass). -/
def isRevitMatchPre (mv : String) (strict : Bool) : LegacyMember → Bool
  | .baseObj p =>
    (p.speckle_type == revitParamType) &&
      (match p.name.getD (.str "") with
       | .str s => prefixMatches mv strict s
       | _ => false)
  | .plainVal _ => false

/-- The name recorded for a legacy member (`getattr(param_obj, "name", "")`). -/
def memberName : LegacyMember → PValue
  | .baseObj p => p.name.getD (.str "")
  | .plainVal v => v

/-- Well-formedness used by the C7 theorem: a member tagged as a Revit
parameter carries a string name (so `startswith` does not raise on it). -/
def WFMember : LegacyMember → Prop
  | .baseObj p => p.speckle_type = revitParamType → ∃ s, p.name.getD (.str "") = PValue.str s
  | .plainVal _ => True

/-- A node carrying only a legacy `parameters` collection whose single member
is a Revit parameter with a name matching the prefix `"Foo_"`. -/
def revitNodeC7 : SpeckleNode :=
  ⟨"n1", none,
    some ⟨[("p1", .baseObj ⟨revitParamType, some (.str "Foo_Bar"), some (.str "v")⟩)]⟩⟩

/-- The legacy members used by the C7 witness: one matching Revit parameter,
one non-parameter member, one non-matching Revit parameter. -/
def c7MembersW : List (String × LegacyMember) :=
  [("p1", .baseObj ⟨revitParamType, some (.str "Foo_Bar"), some (.str "v")⟩),
   ("p2", .plainVal (.str "z")),
   ("p3", .baseObj ⟨revitParamType, some (.str "Keep"), some (.str "w")⟩)]

/-! ## Orchestrator (automate_function of function.py)

The external collaborator (`AutomationContext`) is an environment: the
traversal contexts it yields and the ids `create_new_version_in_project`
returns.  The orchestrator's observable behaviour is the ordered list of
collaborator calls it makes (`mark_run_failed`, `mark_run_success`,
`action.report`, the version commit, `set_context_view`). -/

/-- `SanitizationMode` of inputs.py. -/
inductive SanitizationMode where
  | PREFIX_MATCHING
  | PATTERN_MATCHING
  | ANONYMIZATION

/-- `FunctionInputs` of inputs.py. -/
structure FunctionInputs where
  sanitization_mode : SanitizationMode
  parameter_input : String
  strict_mode : Bool

/-- Python `str(...)` of the mode enum, as interpolated into the success
message. -/
def modeStr : SanitizationMode → String
  | .PREFIX_MATCHING => "SanitizationMode.PREFIX_MATCHING"
  | .PATTERN_MATCHING => "SanitizationMode.PATTERN_MATCHING"
  | .ANONYMIZATION => "SanitizationMode.ANONYMIZATION"

/-- Calls made on the external collaborator, in program order. -/
inductive Event where
  | markRunFailed (msg : String)
  | markRunSuccess (msg : String)
  | reportCall
  | createVersionCall
  | setContextViewCall
deriving DecidableEq

/-- The environment behind the collaborator: the traversal contexts the
walker visits and the pair returned by `create_new_version_in_project`
(an empty `newVersionId` is Python-falsy — the commit produced no version). -/
structure Collaborator where
  contexts : List Context
  modelName : String
  newModelId : String
  newVersionId : String

/-- The traversal loop `for context in traversal_contexts:
processor.process_context(context)`. -/
def runProcessor (fuel : Nat) (a : ParameterAction) (checkValues : Bool) :
    List Context → PState → Option PState
  | [], st => some st
  | ctx :: rest, st =>
    match processContext fuel a checkValues ctx st with
    | none => none
    | some (_, st') => runProcessor fuel a checkValues rest st'

/-- The final success message of `automate_function`. -/
def successMessage (fi : FunctionInputs) : String :=
  "Parameters processed successfully with shield function "
    ++ modeStr fi.sanitization_mode
    ++ (if fi.strict_mode then " running in strict mode" else "") ++ "."

/-- Events after the commit request: failure when no version id came back,
otherwise the context-view pin and the final success message. -/
def commitTail (env : Collaborator) (fi : FunctionInputs) : List Event :=
  if env.newVersionId == "" then [.markRunFailed "Failed to create a new version."]
  else [.setContextViewCall, .markRunSuccess (successMessage fi)]

/-- Tail of `automate_function` once an action exists: drive the walker over
every context; if `processed_objects` stayed empty, succeed with the
no-changes message and stop; otherwise call `action.report`, request the
version commit, and finish according to its result.  `none` is an exception
escaping the run. -/
def runMain (fuel : Nat) (env : Collaborator) (fi : FunctionInputs)
    (a : ParameterAction) (checkValues : Bool) : Option (List Event) :=
  match runProcessor fuel a checkValues env.contexts PState.initial with
  | none => none
  | some st =>
    if st.processedObjects.isEmpty then
      some [.markRunSuccess "No parameters were processed."]
    else some (.reportCall :: .createVersionCall :: commitTail env fi)

/-- `automate_function`: resolve the action from the configuration — the two
matching modes fail the run on an empty pattern input — then run the main
flow.  The source's `if not action` fallback is unreachable over the
three-valued mode enum and is not modelled. -/
def automate_function (fuel : Nat) (env : Collaborator) (fi : FunctionInputs) :
    Option (List Event) :=
  match fi.sanitization_mode with
  | .PREFIX_MATCHING =>
    if fi.parameter_input == "" then
      some [.markRunFailed "No parameter prefix has been set for PREFIX_MATCHING mode."]
    else
      runMain fuel env fi (.removal (.prefixMatcher fi.parameter_input fi.strict_mode)) false
  | .PATTERN_MATCHING =>
    if fi.parameter_input == "" then
      some [.markRunFailed "No parameter pattern has been set for PATTERN_MATCHING mode."]
    else
      runMain fuel env fi (.removal (.patternMatcher fi.parameter_input fi.strict_mode)) false
  | .ANONYMIZATION => runMain fuel env fi .anonymization true

/-- The action and check mode `automate_function` resolves from its inputs
(`none` when the run fails on configuration). -/
def resolvedAction (fi : FunctionInputs) : Option (ParameterAction × Bool) :=
  match fi.sanitization_mode with
  | .PREFIX_MATCHING =>
    if fi.parameter_input == "" then none
    else some (.removal (.prefixMatcher fi.parameter_input fi.strict_mode), false)
  | .PATTERN_MATCHING =>
    if fi.parameter_input == "" then none
    else some (.removal (.patternMatcher fi.parameter_input fi.strict_mode), false)
  | .ANONYMIZATION => some (.anonymization, true)

/-! ## Verification: lemmas, claim theorems and witnesses -/

example : anonymize_email "e@example.com" = "*@example.com" := by decide
example : anonymize_email "ab@x.io" = "a*@x.io" := by decide
example : anonymize_email "email@example.com" = "e***l@example.com" := by decide
example : contains_email "no emails here" = false := by decide
example : contains_email "x ab@x.io y" = true := by decide
example : anonymize_email "a@b.cd and e@f.gh" = "*@b.cd and *@f.gh" := by decide

/-! ### Lemmas about the email matcher -/

lemma countWhile_le_length (p : Char → Bool) : ∀ l : List Char, countWhile p l ≤ l.length
  | [] => by simp [countWhile]
  | c :: rest => by
    by_cases h : p c
    · simpa [countWhile, h] using countWhile_le_length p rest
    · simp [countWhile, h]

lemma countWhile_get (p : Char → Bool) :
    ∀ (l : List Char) (i : Nat), i < countWhile p l → ∃ c, l.get? i = some c ∧ p c = true
  | [], i, h => by simp [countWhile] at h
  | c :: rest, 0, h => by
    by_cases hc : p c
    · exact ⟨c, rfl, hc⟩
    · simp [countWhile, hc] at h
  | c :: rest, i + 1, h => by
    by_cases hc : p c
    · simp only [countWhile, hc, if_true] at h
      simpa using countWhile_get p rest i (by omega)
    · simp [countWhile, hc] at h

lemma searchDot_le (rest : List Char) : ∀ j k, searchDot rest j = some k → k ≤ rest.length := by
  intro j
  induction j with
  | zero => intro k h; simp [searchDot] at h
  | succ j ih =>
    intro k h
    simp only [searchDot] at h
    split at h
    · rename_i hdot
      have hdot' : rest.get? (j + 1) = some '.' := eq_of_beq hdot
      have hlt : j + 1 < rest.length := by
        have := List.get?_eq_some.mp hdot'
        exact this.choose
      split at h
      · rename_i ht
        have hinj : (j + 1) + 1 + countWhile Char.isAlpha (rest.drop (j + 2)) = k :=
          Option.some.inj h
        have hcw : countWhile Char.isAlpha (rest.drop (j + 2)) ≤ (rest.drop (j + 2)).length :=
          countWhile_le_length _ _
        rw [List.length_drop] at hcw
        omega
      · exact ih k h
    · exact ih k h

lemma matchEmail_struct {s : List Char} {n : Nat} (h : matchEmail s = some n) :
    1 ≤ countWhile isLocalChar s ∧
    s.get? (countWhile isLocalChar s) = some '@' ∧
    countWhile isLocalChar s + 1 ≤ n ∧ n ≤ s.length := by
  simp only [matchEmail] at h
  split at h
  · exact absurd h (by simp)
  · rename_i hm0
    have hm1 : 1 ≤ countWhile isLocalChar s := by
      rcases Nat.eq_zero_or_pos (countWhile isLocalChar s) with h0 | h0
      · exact absurd (by simpa using h0) hm0
      · exact h0
    split at h
    · rename_i c hg
      split at h
      · rename_i hc
        have hc' : c = '@' := eq_of_beq hc
        subst hc'
        split at h
        · rename_i k hs
          have hn : countWhile isLocalChar s + 1 + k = n := Option.some.inj h
          have hk : k ≤ (s.drop (countWhile isLocalChar s + 1)).length :=
            searchDot_le _ _ _ hs
          rw [List.length_drop] at hk
          have hmlt : countWhile isLocalChar s < s.length := (List.get?_eq_some.mp hg).choose
          exact ⟨hm1, hg, by omega, by omega⟩
        · exact absurd h (by simp)
      · exact absurd h (by simp)
    · exact absurd h (by simp)

lemma takeWhile_append_of (p : Char → Bool) (x : Char) (hx : p x = false) :
    ∀ (l r : List Char), (∀ c ∈ l, p c = true) →
      (l ++ x :: r).takeWhile p = l ∧ (l ++ x :: r).dropWhile p = x :: r
  | [], r, _ => by simp [List.takeWhile, List.dropWhile, hx]
  | c :: l, r, hl => by
    have hc : p c = true := hl c (by simp)
    have ih := takeWhile_append_of p x hx l r (fun d hd => hl d (by simp [hd]))
    simp [List.takeWhile, List.dropWhile, hc, ih.1, ih.2]

lemma anonymizeLocal_length {l : List Char} (h : 1 ≤ l.length) :
    (anonymizeLocal l).length = l.length := by
  unfold anonymizeLocal
  split
  · rename_i h2
    simp only [List.length_append, List.length_take, List.length_replicate, List.length_drop]
    omega
  · split
    · rename_i h2 heq
      have : l.length = 2 := by simpa using heq
      simp [List.length_take, this]
    · rename_i h2 hne
      have : l.length = 1 := by
        have : ¬ l.length = 2 := by simpa using hne
        omega
      simp [this]

lemma anonymizeLocal_ne {l : List Char} (hl : ∀ c ∈ l, isLocalChar c = true)
    (h1 : 1 ≤ l.length) : anonymizeLocal l ≠ l := by
  have hstar : isLocalChar '*' = false := by decide
  match l, h1 with
  | [c], _ =>
    have hc := hl c (by simp)
    simp only [anonymizeLocal]
    norm_num
    intro hcontra
    rw [← hcontra] at hc
    simp [hstar] at hc
  | [c0, c1], _ =>
    have hc := hl c1 (by simp)
    simp only [anonymizeLocal]
    norm_num
    intro hcontra
    rw [← hcontra] at hc
    simp [hstar] at hc
  | c0 :: c1 :: c2 :: rest, _ =>
    have hc := hl c1 (by simp)
    have hlen : 2 < (c0 :: c1 :: c2 :: rest).length := by simp
    intro hcontra
    simp only [anonymizeLocal, List.length_cons] at hcontra
    have h32 : rest.length + 1 + 1 + 1 - 2 = rest.length + 1 := by omega
    rw [h32, List.replicate_succ, if_pos (by omega : 2 < rest.length + 1 + 1 + 1)] at hcontra
    simp only [List.take, List.cons_append, List.nil_append, List.cons.injEq, true_and] at hcontra
    rw [← hcontra.1] at hc
    simp [hstar] at hc

/-- Decomposition of a matched email: the matched prefix splits as a nonempty
all-local-characters part, the `@`, and the rest; `replace_email` rebuilds it
with the local part anonymised and the domain kept verbatim. -/
lemma replace_take_decomp {s : List Char} {n : Nat} (h : matchEmail s = some n) :
    ∃ A B : List Char,
      s.take n = A ++ '@' :: B ∧
      replace_email (s.take n) = anonymizeLocal A ++ '@' :: B ∧
      (∀ c ∈ A, isLocalChar c = true) ∧ 1 ≤ A.length ∧ A.length + 1 + B.length = n := by
  obtain ⟨hm1, hat, hmn, hns⟩ := matchEmail_struct h
  set m := countWhile isLocalChar s with hmdef
  have hms : m < s.length := (List.get?_eq_some.mp hat).choose
  have hA : ∀ c ∈ s.take m, isLocalChar c = true := by
    intro c hc
    rcases List.mem_iff_get?.mp hc with ⟨i, hi⟩
    have hilen : i < (s.take m).length := (List.get?_eq_some.mp hi).choose
    have him : i < m := by
      have := List.length_take m s
      omega
    rcases countWhile_get isLocalChar s i (by omega) with ⟨c', hc', hc'p⟩
    rw [List.get?_take him, hc'] at hi
    cases hi
    exact hc'p
  have hat' : s[m]? = some '@' := by rw [← List.get?_eq_getElem?]; exact hat
  have hdec : s.take n = s.take m ++ '@' :: (s.take n).drop (m + 1) := by
    conv_lhs => rw [← List.take_append_drop (m + 1) (s.take n)]
    rw [List.take_take, Nat.min_eq_left hmn, List.take_succ, hat']
    simp
  obtain ⟨B, hB⟩ : ∃ B, s.take n = s.take m ++ '@' :: B := ⟨_, hdec⟩
  refine ⟨s.take m, B, hB, ?_, hA, ?_, ?_⟩
  · have hA' : ∀ c ∈ s.take m, (c != '@') = true := by
      intro c hc
      have hloc := hA c hc
      have : c ≠ '@' := by
        intro heq; rw [heq] at hloc; exact absurd hloc (by decide)
      simpa using this
    have htw := takeWhile_append_of (fun c => c != '@') '@' (by decide) (s.take m) B hA'
    rw [replace_email, hB, htw.1, htw.2]
    simp
  · rw [List.length_take]
    omega
  · have hlenB := congrArg List.length hB
    simp only [List.length_take, List.length_append, List.length_cons] at hlenB
    have h1 : n ⊓ s.length = n := Nat.min_eq_left hns
    have h2 : m ⊓ s.length = m := Nat.min_eq_left (le_of_lt hms)
    rw [h1, h2] at hlenB
    rw [List.length_take, h2]
    omega

lemma replace_take_length {s : List Char} {n : Nat} (h : matchEmail s = some n) :
    (replace_email (s.take n)).length = n := by
  obtain ⟨A, B, _, hrepl, _, hA1, hlen⟩ := replace_take_decomp h
  rw [hrepl]
  simp only [List.length_append, List.length_cons, anonymizeLocal_length hA1]
  omega

lemma replace_take_ne {s : List Char} {n : Nat} (h : matchEmail s = some n) :
    replace_email (s.take n) ≠ s.take n := by
  obtain ⟨A, B, hdec, hrepl, hloc, hA1, _⟩ := replace_take_decomp h
  rw [hrepl, hdec]
  intro hcontra
  have hAeq : anonymizeLocal A = A :=
    (List.append_inj hcontra (anonymizeLocal_length hA1)).1
  exact anonymizeLocal_ne hloc hA1 hAeq

lemma matchEmail_pos {s : List Char} {n : Nat} (h : matchEmail s = some n) : 1 ≤ n := by
  obtain ⟨hm1, _, hmn, _⟩ := matchEmail_struct h
  omega

lemma subEmailsAux_length : ∀ (fuel : Nat) (s : List Char), s.length ≤ fuel →
    (subEmailsAux fuel s).length = s.length
  | 0, s, _ => rfl
  | _ + 1, [], _ => rfl
  | fuel + 1, c :: rest, hf => by
    simp only [subEmailsAux]
    rcases hm : matchEmail (c :: rest) with _ | n
    · have hfl : rest.length ≤ fuel := by
        simp only [List.length_cons] at hf
        omega
      have ih := subEmailsAux_length fuel rest hfl
      simp [ih]
    · obtain ⟨_, _, _, hns⟩ := matchEmail_struct hm
      have hpos := matchEmail_pos hm
      have hdl : ((c :: rest).drop n).length ≤ fuel := by
        rw [List.length_drop]
        simp only [List.length_cons] at hns hf ⊢
        omega
      have ih := subEmailsAux_length fuel ((c :: rest).drop n) hdl
      simp only [List.length_append, ih, replace_take_length hm, List.length_drop]
      simp only [List.length_cons] at hns ⊢
      omega

lemma subEmailsAux_ne : ∀ (fuel : Nat) (s : List Char), s.length ≤ fuel →
    searchEmail s = true → subEmailsAux fuel s ≠ s
  | 0, s, hf, hs => by
    have : s = [] := List.length_eq_zero.mp (Nat.le_zero.mp hf)
    subst this
    simp [searchEmail] at hs
  | _ + 1, [], _, hs => by simp [searchEmail] at hs
  | fuel + 1, c :: rest, hf, hs => by
    simp only [subEmailsAux]
    rcases hm : matchEmail (c :: rest) with _ | n
    · intro hcontra
      have hrest : searchEmail rest = true := by
        simp only [searchEmail, hm, Option.isSome_none, Bool.false_or] at hs
        exact hs
      have hflen : rest.length ≤ fuel := by
        simp only [List.length_cons] at hf
        omega
      exact subEmailsAux_ne fuel rest hflen hrest (List.cons.inj hcontra).2
    · intro hcontra
      obtain ⟨_, _, _, hns⟩ := matchEmail_struct hm
      conv_rhs at hcontra => rw [← List.take_append_drop n (c :: rest)]
      have hlen1 : (replace_email ((c :: rest).take n)).length =
          ((c :: rest).take n).length := by
        rw [replace_take_length hm, List.length_take, Nat.min_eq_left hns]
      have := (List.append_inj hcontra hlen1).1
      exact replace_take_ne hm this

/-- `contains_email` is the existence of a match somewhere in the string, so
a positive `contains_email` makes the substitution change the string while
preserving its length. -/
lemma anonymize_changes {v : String} (h : contains_email v = true) :
    anonymize_email v ≠ v ∧ (anonymize_email v).length = v.length := by
  constructor
  · intro hcontra
    have hdata : subEmailsAux v.data.length v.data = v.data :=
      congrArg String.data hcontra
    exact subEmailsAux_ne v.data.length v.data le_rfl h hdata
  · show (anonymize_email v).data.length = v.data.length
    exact subEmailsAux_length v.data.length v.data le_rfl

lemma take_one_eq_head (l : List Char) : l.take 1 = l.head?.toList := by
  cases l <;> simp

lemma drop_pred_eq_getLast : ∀ l : List Char, l.drop (l.length - 1) = l.getLast?.toList
  | [] => rfl
  | [c] => rfl
  | c :: d :: t => by
    have ih := drop_pred_eq_getLast (d :: t)
    simp only [List.length_cons] at ih ⊢
    have h1 : t.length + 1 + 1 - 1 = t.length + 1 := by omega
    rw [h1, List.drop_succ_cons]
    have h2 : t.length + 1 = (d :: t).length := by simp
    rw [show t.length + 1 - 1 = t.length from by omega] at ih
    rw [show (List.drop t.length (d :: t)) = List.drop ((d :: t).length - 1) (d :: t) from by
      simp]
    rw [show ((d :: t).length - 1) = t.length from by simp] at *
    rw [ih, List.getLast?_cons_cons]

lemma anonymizeLocal_eq_spec (l : List Char) : anonymizeLocal l = maskedLocalSpec l := by
  unfold anonymizeLocal maskedLocalSpec
  rw [take_one_eq_head, drop_pred_eq_getLast]

/-- C4: the masker replaces each email-like substring left to right by global
substitution, keeping the domain verbatim and masking the local part by its
length (first+last around asterisks for L > 2, first plus one asterisk for
L == 2, one asterisk for L ≤ 1); in particular the three quoted examples hold,
and two emails in one string are masked independently. -/
theorem c4_email_masking :
    anonymize_email "e@example.com" = "*@example.com" ∧
    anonymize_email "ab@x.io" = "a*@x.io" ∧
    anonymize_email "email@example.com" = "e***l@example.com" ∧
    anonymize_email "a@b.cd and e@f.gh" = "*@b.cd and *@f.gh" ∧
    (∀ A B : List Char, (∀ c ∈ A, c ≠ '@') →
      replace_email (A ++ '@' :: B) = maskedLocalSpec A ++ '@' :: B) := by
  refine ⟨by decide, by decide, by decide, by decide, ?_⟩
  intro A B hA
  have hA' : ∀ c ∈ A, (c != '@') = true := by
    intro c hc
    simpa using hA c hc
  have htw := takeWhile_append_of (fun c => c != '@') '@' (by decide) A B hA'
  rw [replace_email, htw.1, htw.2, anonymizeLocal_eq_spec]
  simp

/-- Witness for C4: the universal component applied at the local part "ab" and
domain tail "x.io". -/
theorem c4_email_masking_witness :
    (∀ c ∈ ['a', 'b'], c ≠ '@') ∧
    replace_email (['a', 'b'] ++ '@' :: ['x', '.', 'i', 'o']) =
      maskedLocalSpec ['a', 'b'] ++ '@' :: ['x', '.', 'i', 'o'] :=
  ⟨by decide, c4_email_masking.2.2.2.2 ['a', 'b'] ['x', '.', 'i', 'o'] (by decide)⟩

/-- C9: anonymisation is a pure function of its input (two evaluations agree),
but it is not idempotent: masking "email@example.com" twice gives
"e****@example.com", not "e***l@example.com". -/
theorem c9_mask_deterministic_not_idempotent :
    (∀ v : String, anonymize_email v = anonymize_email v) ∧
    anonymize_email (anonymize_email "email@example.com") ≠
      anonymize_email "email@example.com" :=
  ⟨fun _ => rfl, by decide⟩

example : (PatternChecker.init "/^foo_\\d+$/i" true).check "FOO_123" = some true := by decide
example : (PatternChecker.init "/^foo_\\d+$/" true).check "FOO_123" = some false := by decide
example : (PatternChecker.init "/^foo_\\d+$/" false).check "FOO_123" = some true := by decide
example : (PatternChecker.init "/^foo_\\d+$/" true).check "foo_9" = some true := by decide
example : (PatternChecker.init "/^foo_\\d+$/" true).check "xfoo_9" = some false := by decide

lemma reSearch_iff (r : Regex) (ic : Bool) (s : String) :
    reSearch r ic s = true ↔ ∃ i, i ≤ s.length ∧ Regex.ends ic s.data r i ≠ [] := by
  unfold reSearch
  rw [List.any_eq_true]
  constructor
  · rintro ⟨i, hmem, hp⟩
    refine ⟨i, ?_, ?_⟩
    · have := List.mem_range.mp hmem
      omega
    · intro hemp
      rw [hemp] at hp
      simp at hp
  · rintro ⟨i, hle, hne⟩
    refine ⟨i, List.mem_range.mpr (by omega), ?_⟩
    simp only [Bool.not_eq_true']
    rw [← Bool.not_eq_true]
    intro hemp
    exact hne (List.isEmpty_iff.mp hemp)

/-- C3: a pattern is classified as regex exactly when it starts with `/` and,
after stripping trailing `i`s, ends with `/`; a pattern ending in literal `/i`
is case-insensitive regardless of `strict`, otherwise case-insensitivity is
`not strict`; regex matching is unanchored search (a match may start at any
position); and on `"FOO_123"` the pattern `/^foo_\d+$/i` matches for both
strict settings while `/^foo_\d+$/` matches exactly when `strict` is false. -/
theorem c3_pattern_checker_regex_semantics :
    (∀ p strict, (PatternChecker.init p strict).is_regex
        = (startsWithL ['/'] p.data && endsWithL ['/'] (rstripI p.data))) ∧
    (∀ p strict, (PatternChecker.init p strict).ignore_case
        = (((PatternChecker.init p strict).is_regex && endsWithL ['/', 'i'] p.data)
            || !strict)) ∧
    (∀ p strict name b, (PatternChecker.init p strict).check name = some b →
        (b = true ↔ ∃ r i, compileSeq (PatternChecker.init p strict).pattern.data = some r ∧
            i ≤ name.length ∧
            Regex.ends (PatternChecker.init p strict).ignore_case name.data r i ≠ [])) ∧
    ((PatternChecker.init "/^foo_\\d+$/i" true).check "FOO_123" = some true) ∧
    ((PatternChecker.init "/^foo_\\d+$/i" false).check "FOO_123" = some true) ∧
    ((PatternChecker.init "/^foo_\\d+$/" false).check "FOO_123" = some true) ∧
    ((PatternChecker.init "/^foo_\\d+$/" true).check "FOO_123" = some false) := by
  refine ⟨?_, ?_, ?_, by decide, by decide, by decide, by decide⟩
  · intro p strict
    unfold PatternChecker.init
    split
    · rename_i hre
      split <;> simp [hre]
    · rename_i hre
      simp only [Bool.not_eq_true] at hre
      simp [hre]
  · intro p strict
    unfold PatternChecker.init
    split
    · rename_i hre
      split
      · rename_i hi
        simp [hi]
      · rename_i hi
        simp only [Bool.not_eq_true] at hi
        simp [hi]
    · simp
  · intro p strict name b hb
    unfold PatternChecker.check at hb
    split at hb
    · rename_i hre
      rcases hcomp : compileSeq (PatternChecker.init p strict).pattern.data with _ | r
      · rw [hcomp] at hb
        exact absurd hb (by simp)
      · rw [hcomp] at hb
        simp only [Option.map_some', Option.some.injEq] at hb
        subst hb
        rw [reSearch_iff]
        constructor
        · rintro ⟨i, hle, hne⟩
          exact ⟨r, i, rfl, hle, hne⟩
        · rintro ⟨r', i, hcomp', hle, hne⟩
          cases hcomp'
          exact ⟨i, hle, hne⟩
    · exact absurd hb (by simp)

/-- Witness for C3: the search-characterisation component instantiated at the
checker built from `"/^foo_\d+$/"` with `strict = true` on `"FOO_123"`. -/
theorem c3_pattern_checker_regex_semantics_witness :
    ((PatternChecker.init "/^foo_\\d+$/" true).check "FOO_123" = some false) ∧
    (false = true ↔ ∃ r i,
        compileSeq (PatternChecker.init "/^foo_\\d+$/" true).pattern.data = some r ∧
        i ≤ "FOO_123".length ∧
        Regex.ends (PatternChecker.init "/^foo_\\d+$/" true).ignore_case "FOO_123".data r i ≠ []) :=
  ⟨by decide,
    c3_pattern_checker_regex_semantics.2.2.1 "/^foo_\\d+$/" true "FOO_123" false (by decide)⟩

/-- C8 counterexample: the degenerate patterns `/` and `//` do NOT fail fast;
`PatternChecker.__init__` accepts them as regexes with an empty body and the
resulting checker matches an arbitrary name. -/
theorem c8_degenerate_pattern_counterexample :
    (PatternChecker.init "/" true).is_regex = true ∧
    (PatternChecker.init "/" true).pattern = "" ∧
    (PatternChecker.init "//" false).pattern = "" ∧
    (PatternChecker.init "/" true).check "AnyName" = some true ∧
    (PatternChecker.init "//" false).check "AnyName" = some true := by decide

/-- C8 amended: constructing a checker from `/` or `//` succeeds (no
configuration error exists in the code), classifies the pattern as a regex
with empty body, and the resulting matcher silently matches every name. -/
theorem c8_degenerate_pattern_matches_everything :
    ∀ (name : String) (strict : Bool),
      (PatternChecker.init "/" strict).check name = some true ∧
      (PatternChecker.init "//" strict).check name = some true := by
  intro name strict
  have he : ∀ ic, reSearch Regex.empty ic name = true := by
    intro ic
    rw [reSearch_iff]
    exact ⟨0, by omega, by simp [Regex.ends]⟩
  cases strict
  · exact ⟨by show some (reSearch Regex.empty true name) = some true; rw [he],
      by show some (reSearch Regex.empty true name) = some true; rw [he]⟩
  · exact ⟨by show some (reSearch Regex.empty false name) = some true; rw [he],
      by show some (reSearch Regex.empty false name) = some true; rw [he]⟩

/-- C1: walking the properties mapping of C1 with a prefix-removal action for
`"Foo_"` (either strict setting) removes exactly the top-level key `"Foo"`,
leaves the nested `"Baz"` leaf unchanged, and puts the node's id into
`processed_objects`. -/
theorem c1_prefix_removal_walker (strict : Bool) (id : String) :
    processContext 10 (.removal (.prefixMatcher "Foo_" strict)) false
        ⟨⟨id, some fooProps, none⟩⟩ PState.initial =
      some (⟨id, some [("nested", PValue.dict
              [("Baz", PValue.dict [("name", PValue.str "Baz"), ("value", PValue.str "y")])])],
            none⟩,
          ⟨[id], [(id, PValue.str "Foo_Bar")], 0⟩) ∧
    id ∈ (⟨[id], [(id, PValue.str "Foo_Bar")], 0⟩ : PState).processedObjects := by
  cases strict <;> exact ⟨rfl, by simp⟩

/-- C2: `RemovalAction.apply` never raises — it is total over every parameter,
parent id, container kind (plain dictionary or legacy `Base` object) and key —
and it always appends the parameter's name under the parent node's id to
`affected_parameters`, whether or not the key was present in the container
(i.e. whether or not the removal actually removed anything).  The other state
components are untouched. -/
theorem c2_removal_apply_total (parameter : List (String × PValue)) (objId : String)
    (c : Container) (key : String) (st : PState) :
    ((RemovalAction.apply parameter objId c key st).2).affected
        = st.affected ++ [(objId, paramNameOf parameter key)] ∧
    ((RemovalAction.apply parameter objId c key st).2).processedObjects
        = st.processedObjects ∧
    ((RemovalAction.apply parameter objId c key st).2).anonymizedCount
        = st.anonymizedCount := by
  cases c <;> exact ⟨rfl, rfl, rfl⟩

lemma lookupKey_setKey {α : Type} (k : String) (v : α) :
    ∀ (l : List (String × α)) (w : α), lookupKey k l = some w →
      lookupKey k (setKey k v l) = some v
  | [], w, h => by simp [lookupKey] at h
  | (k2, v2) :: rest, w, h => by
    by_cases hk : (k2 == k) = true
    · simp [setKey, lookupKey, hk]
    · simp only [lookupKey, hk] at h
      simp only [setKey, hk, Bool.false_eq_true, if_false, lookupKey]
      exact lookupKey_setKey k v rest w (by simpa [hk] using h)

/-- C10: when `contains_email` holds of a string value `v`, the mask differs
from `v` and has the same length; consequently, whenever the anonymization
action's check succeeds on a string parameter value, `apply` always takes the
mutating branch: it rewrites `parameter["value"]` to the mask and records the
parameter (the unchanged-value skip branch is unreachable under a passed
check). -/
theorem c10_check_implies_mutation (v : String) (h : contains_email v = true) :
    (anonymize_email v ≠ v ∧ (anonymize_email v).length = v.length) ∧
    (∀ (parameter : List (String × PValue)) (objId key : String) (st : PState),
        lookupKey "value" parameter = some (.str v) →
        AnonymizationAction.applyLeaf parameter objId key st =
          (setKey "value" (.str (anonymize_email v)) parameter,
           { st with affected := st.affected ++ [(objId, paramNameOf parameter key)],
                     anonymizedCount := st.anonymizedCount + 1 }) ∧
        lookupKey "value" (setKey "value" (.str (anonymize_email v)) parameter) =
          some (.str (anonymize_email v))) := by
  have hch := anonymize_changes h
  refine ⟨hch, ?_⟩
  intro parameter objId key st hv
  refine ⟨?_, lookupKey_setKey _ _ parameter _ hv⟩
  unfold AnonymizationAction.applyLeaf
  rw [hv]
  have hne : (anonymize_email v == v) = false := beq_eq_false_iff_ne.mpr hch.1
  simp [hne]

/-- Witness for C10 at `v = "email@example.com"` with a one-entry parameter
leaf. -/
theorem c10_check_implies_mutation_witness :
    contains_email "email@example.com" = true ∧
    lookupKey "value" [("value", PValue.str "email@example.com")] =
      some (.str "email@example.com") ∧
    anonymize_email "email@example.com" ≠ "email@example.com" := by
  refine ⟨by decide, rfl, ?_⟩
  exact (c10_check_implies_mutation "email@example.com" (by decide)).1.1

lemma lookupKey_append_not_mem {α : Type} (k : String) :
    ∀ (l1 l2 : List (String × α)), k ∉ l1.map Prod.fst →
      lookupKey k (l1 ++ l2) = lookupKey k l2
  | [], _, _ => rfl
  | (k2, v) :: rest, l2, h => by
    have hne : k2 ≠ k := by
      intro heq
      exact h (by simp [heq])
    have hk2 : (k2 == k) = false := beq_eq_false_iff_ne.mpr hne
    simp only [List.cons_append, lookupKey, hk2, Bool.false_eq_true, if_false]
    exact lookupKey_append_not_mem k rest l2 (fun hm => h (by simp [hm]))

lemma eraseKey_append_not_mem {α : Type} (k : String) :
    ∀ (l1 l2 : List (String × α)), k ∉ l1.map Prod.fst →
      eraseKey k (l1 ++ l2) = l1 ++ eraseKey k l2
  | [], _, _ => rfl
  | (k2, v) :: rest, l2, h => by
    have hne : k2 ≠ k := by
      intro heq
      exact h (by simp [heq])
    have hk2 : (k2 == k) = false := beq_eq_false_iff_ne.mpr hne
    simp only [List.cons_append, eraseKey, hk2, Bool.false_eq_true, if_false]
    exact congrArg (fun t => (k2, v) :: t)
      (eraseKey_append_not_mem k rest l2 (fun hm => h (by simp [hm])))

lemma addProcessed_contains (l : List String) (id : String) :
    (addProcessed l id).contains id = true := by
  unfold addProcessed
  split
  · rename_i h
    exact h
  · simp

lemma addProcessed_idem (l : List String) (id : String) :
    addProcessed (addProcessed l id) id = addProcessed l id := by
  generalize hX : addProcessed l id = X
  have h : X.contains id = true := hX ▸ addProcessed_contains l id
  have hm : id ∈ X := by simpa using h
  unfold addProcessed
  simp [hm]

lemma revitLoop_removal_spec (mv : String) (strict : Bool) (objId : String) :
    ∀ (ms pre full : List (String × LegacyMember)) (st : PState),
      full = pre ++ ms →
      ((pre ++ ms).map Prod.fst).Nodup →
      (∀ km ∈ ms, WFMember km.2) →
      revitLoop (.removal (.prefixMatcher mv strict)) false objId (ms.map Prod.fst) full st =
        some (pre ++ ms.filter (fun km => !(isRevitMatchPre mv strict km.2)),
          { processedObjects :=
              if ms.any (fun km => isRevitMatchPre mv strict km.2)
              then addProcessed st.processedObjects objId
              else st.processedObjects,
            affected := st.affected ++
              (ms.filter (fun km => isRevitMatchPre mv strict km.2)).map
                (fun km => (objId, memberName km.2)),
            anonymizedCount := st.anonymizedCount })
  | [], pre, full, st, hfull, hnodup, hwf => by
    subst hfull
    simp [revitLoop]
  | (k, mem) :: rest, pre, full, st, hfull, hnodup, hwf => by
    subst hfull
    have hnodup' : (pre.map Prod.fst ++ k :: rest.map Prod.fst).Nodup := by
      simpa using hnodup
    have hmid := List.nodup_cons.mp (List.nodup_middle.mp hnodup')
    have hkpre : k ∉ pre.map Prod.fst := fun hk => hmid.1 (List.mem_append.mpr (Or.inl hk))
    have hrestnodup : ((pre ++ rest).map Prod.fst).Nodup := by
      simpa using hmid.2
    have hlook : lookupKey k (pre ++ (k, mem) :: rest) = some mem := by
      rw [lookupKey_append_not_mem k pre _ hkpre]
      simp [lookupKey]
    have hwfrest : ∀ km ∈ rest, WFMember km.2 := fun km hkm => hwf km (by simp [hkm])
    have hassoc : pre ++ (k, mem) :: rest = (pre ++ [(k, mem)]) ++ rest := by simp
    simp only [List.map_cons, revitLoop, hlook]
    cases mem with
    | plainVal v =>
      simp only []
      rw [hassoc,
        revitLoop_removal_spec mv strict objId rest (pre ++ [(k, LegacyMember.plainVal v)]) _
          st rfl (by rw [← hassoc]; exact hnodup) hwfrest]
      simp [isRevitMatchPre]
      rw [Bool.false_or]
    | baseObj p =>
      simp only []
      by_cases hsp : p.speckle_type = revitParamType
      · obtain ⟨s, hs⟩ := hwf (k, .baseObj p) (by simp) hsp
        have hbne : (p.speckle_type != revitParamType) = false := by
          simp [hsp]
        rw [hbne, hs]
        simp only [Bool.false_eq_true, if_false, ParameterAction.checkP,
          ParameterMatcher.matches]
        by_cases hmatch : prefixMatches mv strict s = true
        · rw [hmatch]
          simp only [RemovalAction.applyBase, removalBookkeep]
          have herase : eraseKey k (pre ++ (k, LegacyMember.baseObj p) :: rest) =
              pre ++ rest := by
            rw [eraseKey_append_not_mem k pre _ hkpre]
            simp [eraseKey]
          rw [herase]
          rw [revitLoop_removal_spec mv strict objId rest pre _
              { st with
                  processedObjects :=
                    addProcessed (addProcessed st.processedObjects objId) objId,
                  affected := st.affected ++
                    [(objId, paramNameOf
                        [("name", PValue.str s), ("value", p.value.getD (.str "")),
                         ("applicationInternalName", .str k)] k)] }
              rfl hrestnodup hwfrest]
          have hmatchmem : isRevitMatchPre mv strict (.baseObj p) = true := by
            simp [isRevitMatchPre, hsp, hs, hmatch]
          have hname : paramNameOf
              [("name", PValue.str s), ("value", p.value.getD (.str "")),
               ("applicationInternalName", .str k)] k = PValue.str s := rfl
          have hmem : memberName (.baseObj p) = PValue.str s := by
            simp [memberName, hs]
          rw [hname]
          simp only [List.filter_cons, hmatchmem, Bool.not_true, List.any_cons, Bool.true_or,
            if_true, List.map_cons, hmem, Bool.false_eq_true, if_false, addProcessed_idem,
            ite_self, List.append_assoc, List.singleton_append]
        · have hm' : prefixMatches mv strict s = false := by simpa using hmatch
          rw [hm']
          simp only []
          rw [hassoc,
            revitLoop_removal_spec mv strict objId rest (pre ++ [(k, LegacyMember.baseObj p)]) _
              st rfl (by rw [← hassoc]; exact hnodup) hwfrest]
          have hnomatch : isRevitMatchPre mv strict (.baseObj p) = false := by
            simp [isRevitMatchPre, hsp, hs, hm']
          simp only [List.filter_cons, List.any_cons, hnomatch, Bool.not_false, if_true,
            Bool.false_or, Bool.false_eq_true, if_false, List.append_assoc,
            List.singleton_append]
      · have hbne : (p.speckle_type != revitParamType) = true := by
          simp [hsp]
        rw [hbne]
        simp only [if_true]
        rw [hassoc,
          revitLoop_removal_spec mv strict objId rest (pre ++ [(k, LegacyMember.baseObj p)]) _
            st rfl (by rw [← hassoc]; exact hnodup) hwfrest]
        have hnomatch : isRevitMatchPre mv strict (.baseObj p) = false := by
          simp only [isRevitMatchPre, Bool.and_eq_false_iff]
          exact Or.inl (beq_eq_false_iff_ne.mpr hsp)
        simp only [List.filter_cons, List.any_cons, hnomatch, Bool.not_false, if_true,
          Bool.false_or, Bool.false_eq_true, if_false, List.append_assoc,
          List.singleton_append]

/-- C7 counterexample: the walker entry point `process_context` does NOT
enumerate legacy parameters — its v2 branch is a `pass` placeholder — so on a
node whose legacy collection holds a Revit parameter that the active action's
check matches, the run leaves the node untouched and unprocessed. -/
theorem c7_process_context_ignores_legacy_counterexample :
    processContext 10 (.removal (.prefixMatcher "Foo_" false)) false
        ⟨revitNodeC7⟩ PState.initial = some (revitNodeC7, PState.initial) ∧
    PState.initial.processedObjects = [] ∧
    ParameterAction.checkP (.removal (.prefixMatcher "Foo_" false)) (.str "Foo_Bar")
      = some true :=
  ⟨rfl, rfl, by decide⟩

/-- C7 amended: it is the separate `process_revit_parameters` method (not
invoked by `process_context`) that enumerates the collection's member names,
skips entries that are not Revit parameter objects, and runs the active
action's check/apply on each remaining parameter, marking the node processed
exactly when some parameter matches.  Stated for a prefix-removal action over
any well-formed legacy collection: matched members are removed, their names
are recorded in order, and everything else is kept. -/
theorem c7_process_revit_parameters_enumerates (mv : String) (strict : Bool)
    (node : SpeckleNode) (lp : LegacyParams) (st : PState)
    (hparams : node.parameters = some lp)
    (hnodup : (lp.members.map Prod.fst).Nodup)
    (hwf : ∀ km ∈ lp.members, WFMember km.2) :
    process_revit_parameters (.removal (.prefixMatcher mv strict)) false node st =
      some ({ node with parameters := some ⟨lp.members.filter
                (fun km => !(isRevitMatchPre mv strict km.2))⟩ },
        { processedObjects :=
            if lp.members.any (fun km => isRevitMatchPre mv strict km.2)
            then addProcessed st.processedObjects node.id else st.processedObjects,
          affected := st.affected ++
            (lp.members.filter (fun km => isRevitMatchPre mv strict km.2)).map
              (fun km => (node.id, memberName km.2)),
          anonymizedCount := st.anonymizedCount }) := by
  unfold process_revit_parameters
  rw [hparams]
  simp only []
  rw [revitLoop_removal_spec mv strict node.id lp.members [] lp.members st
    (List.nil_append _).symm (by simpa using hnodup) hwf]
  simp

/-- Witness for the amended C7 on a concrete three-member collection. -/
theorem c7_process_revit_parameters_enumerates_witness :
    ((c7MembersW.map Prod.fst).Nodup) ∧
    process_revit_parameters (.removal (.prefixMatcher "Foo_" false)) false
        ⟨"n2", none, some ⟨c7MembersW⟩⟩ PState.initial =
      some ({ (⟨"n2", none, some ⟨c7MembersW⟩⟩ : SpeckleNode) with
              parameters := some ⟨c7MembersW.filter
                (fun km => !(isRevitMatchPre "Foo_" false km.2))⟩ },
        { processedObjects :=
            if c7MembersW.any (fun km => isRevitMatchPre "Foo_" false km.2)
            then addProcessed PState.initial.processedObjects "n2"
            else PState.initial.processedObjects,
          affected := PState.initial.affected ++
            (c7MembersW.filter (fun km => isRevitMatchPre "Foo_" false km.2)).map
              (fun km => ("n2", memberName km.2)),
          anonymizedCount := PState.initial.anonymizedCount }) :=
  ⟨by decide,
    c7_process_revit_parameters_enumerates "Foo_" false ⟨"n2", none, some ⟨c7MembersW⟩⟩
      ⟨c7MembersW⟩ PState.initial rfl (by decide) (by
        intro km hkm
        simp only [c7MembersW, List.mem_cons, List.not_mem_nil, or_false] at hkm
        rcases hkm with rfl | rfl | rfl
        · exact fun _ => ⟨"Foo_Bar", rfl⟩
        · exact trivial
        · exact fun _ => ⟨"Keep", rfl⟩)⟩

lemma automate_function_eq_runMain {fi : FunctionInputs} {a : ParameterAction} {cv : Bool}
    (h : resolvedAction fi = some (a, cv)) (fuel : Nat) (env : Collaborator) :
    automate_function fuel env fi = runMain fuel env fi a cv := by
  obtain ⟨mode, input, strictm⟩ := fi
  cases mode
  case PREFIX_MATCHING =>
    unfold resolvedAction at h
    unfold automate_function
    simp only [] at h ⊢
    by_cases he : (input == "") = true
    · rw [if_pos he] at h
      exact absurd h (by simp)
    · rw [if_neg he] at h
      rw [if_neg he]
      simp only [Option.some.injEq, Prod.mk.injEq] at h
      rw [← h.1, ← h.2]
  case PATTERN_MATCHING =>
    unfold resolvedAction at h
    unfold automate_function
    simp only [] at h ⊢
    by_cases he : (input == "") = true
    · rw [if_pos he] at h
      exact absurd h (by simp)
    · rw [if_neg he] at h
      rw [if_neg he]
      simp only [Option.some.injEq, Prod.mk.injEq] at h
      rw [← h.1, ← h.2]
  case ANONYMIZATION =>
    unfold resolvedAction at h
    unfold automate_function
    simp only [] at h ⊢
    simp only [Option.some.injEq, Prod.mk.injEq] at h
    rw [← h.1, ← h.2]

/-- C5: in every run whose full traversal marks no node processed, the
orchestrator succeeds with the no-changes message and never requests the
version commit. -/
theorem c5_no_changes_success (fuel : Nat) (env : Collaborator) (fi : FunctionInputs)
    (a : ParameterAction) (cv : Bool) (st : PState)
    (hact : resolvedAction fi = some (a, cv))
    (hrun : runProcessor fuel a cv env.contexts PState.initial = some st)
    (hempty : st.processedObjects = []) :
    automate_function fuel env fi = some [.markRunSuccess "No parameters were processed."] ∧
    Event.createVersionCall ∉ [Event.markRunSuccess "No parameters were processed."] := by
  refine ⟨?_, by decide⟩
  rw [automate_function_eq_runMain hact]
  unfold runMain
  rw [hrun]
  simp [hempty]

/-- Witness for C5: a prefix run over one node with an empty properties
mapping. -/
theorem c5_no_changes_success_witness :
    resolvedAction ⟨.PREFIX_MATCHING, "Foo_", false⟩ =
      some (.removal (.prefixMatcher "Foo_" false), false) ∧
    runProcessor 5 (.removal (.prefixMatcher "Foo_" false)) false
        [⟨⟨"n1", some [], none⟩⟩] PState.initial = some PState.initial ∧
    automate_function 5 ⟨[⟨⟨"n1", some [], none⟩⟩], "m", "mid", "vid"⟩
        ⟨.PREFIX_MATCHING, "Foo_", false⟩ =
      some [.markRunSuccess "No parameters were processed."] :=
  ⟨rfl, rfl,
    (c5_no_changes_success 5 ⟨[⟨⟨"n1", some [], none⟩⟩], "m", "mid", "vid"⟩
      ⟨.PREFIX_MATCHING, "Foo_", false⟩ (.removal (.prefixMatcher "Foo_" false)) false
      PState.initial rfl rfl rfl).1⟩

/-- C6: in every run whose traversal marks at least one node processed, the
orchestrator emits exactly one `report` call, the commit request comes only
after it, and a commit returning no version id leads to `mark_run_failed` —
no exception and no `mark_run_success`. -/
theorem c6_report_once_then_commit (fuel : Nat) (env : Collaborator) (fi : FunctionInputs)
    (a : ParameterAction) (cv : Bool) (st : PState)
    (hact : resolvedAction fi = some (a, cv))
    (hrun : runProcessor fuel a cv env.contexts PState.initial = some st)
    (hne : st.processedObjects ≠ []) :
    automate_function fuel env fi =
      some (.reportCall :: .createVersionCall :: commitTail env fi) ∧
    (Event.reportCall :: Event.createVersionCall :: commitTail env fi).count
        Event.reportCall = 1 ∧
    (env.newVersionId = "" →
      commitTail env fi = [.markRunFailed "Failed to create a new version."] ∧
      ∀ m, Event.markRunSuccess m ∉
        (Event.reportCall :: Event.createVersionCall :: commitTail env fi)) := by
  have htail0 : (commitTail env fi).count Event.reportCall = 0 := by
    unfold commitTail
    split <;> simp [List.count_cons]
  refine ⟨?_, ?_, ?_⟩
  · rw [automate_function_eq_runMain hact]
    unfold runMain
    rw [hrun]
    have : st.processedObjects.isEmpty = false := by
      rw [List.isEmpty_eq_false]
      exact hne
    simp [this]
  · simp [List.count_cons, htail0]
  · intro hv
    have hct : commitTail env fi = [.markRunFailed "Failed to create a new version."] := by
      unfold commitTail
      rw [if_pos (by simpa using hv)]
    refine ⟨hct, ?_⟩
    intro m
    rw [hct]
    simp

/-- Witness for C6: a prefix run over one matching node with a failing
commit. -/
theorem c6_report_once_then_commit_witness :
    runProcessor 10 (.removal (.prefixMatcher "Foo_" false)) false
        [⟨⟨"n1", some fooProps, none⟩⟩] PState.initial =
      some ⟨["n1"], [("n1", PValue.str "Foo_Bar")], 0⟩ ∧
    (["n1"] : List String) ≠ [] ∧
    automate_function 10 ⟨[⟨⟨"n1", some fooProps, none⟩⟩], "m", "mid", ""⟩
        ⟨.PREFIX_MATCHING, "Foo_", false⟩ =
      some [.reportCall, .createVersionCall,
        .markRunFailed "Failed to create a new version."] :=
  ⟨rfl, by decide, by
    have h := (c6_report_once_then_commit 10 ⟨[⟨⟨"n1", some fooProps, none⟩⟩], "m", "mid", ""⟩
      ⟨.PREFIX_MATCHING, "Foo_", false⟩ (.removal (.prefixMatcher "Foo_" false)) false
      ⟨["n1"], [("n1", PValue.str "Foo_Bar")], 0⟩ rfl rfl (by simp)).1
    rw [h]
    rfl⟩

end DataShield
